import Mathlib

/-!
Verification of the topology-aware graph synthesis engine of
`multi-agent-automation` (backend/engine/visualization): a shallow
embedding of the node expander, the topology algorithms (star, pipeline,
hierarchy, small-world), the loader's registration check, the edge-id
assignment and the orchestrating `GraphBuilder.build`, together with
theorems settling the specification's claims about them.

Python f-strings render integer indices as decimal strings; the embedding
uses `Nat.repr` (Lean's decimal rendering) for those.  The lemmas below
establish the two facts the id formats rely on: decimal numerals contain
no underscore, and `Nat.repr` is injective.
-/

deriving instance DecidableEq for Except

namespace MasViz

/-! ### Decimal numerals -/

/-- Value of a digit character (used only to parse numerals back). -/
def digitVal (c : Char) : Nat := c.toNat - 48

def parseDigits (l : List Char) : Nat := l.foldl (fun a c => 10 * a + digitVal c) 0

theorem digitVal_digitChar (m : Nat) (h : m < 10) :
    digitVal (Nat.digitChar m) = m := by
  interval_cases m <;> decide

theorem digitChar_ge (m : Nat) (h : 16 ≤ m) : Nat.digitChar m = '*' := by
  unfold Nat.digitChar
  repeat rw [if_neg (by omega)]

theorem digitChar_ne_underscore (m : Nat) : Nat.digitChar m ≠ '_' := by
  rcases Nat.lt_or_ge m 16 with h | h
  · interval_cases m <;> decide
  · rw [digitChar_ge m h]; decide

theorem parseDigits_append (l : List Char) (c : Char) :
    parseDigits (l ++ [c]) = 10 * parseDigits l + digitVal c := by
  simp [parseDigits, List.foldl_append]

theorem toDigitsCore_append (fuel : Nat) : ∀ (n : Nat) (ds : List Char),
    Nat.toDigitsCore 10 fuel n ds = Nat.toDigitsCore 10 fuel n [] ++ ds := by
  induction fuel with
  | zero => intro n ds; simp [Nat.toDigitsCore]
  | succ f ih =>
    intro n ds
    simp only [Nat.toDigitsCore]
    split
    · simp
    · rw [ih (n / 10) (Nat.digitChar (n % 10) :: ds), ih (n / 10) [Nat.digitChar (n % 10)]]
      simp

theorem parseDigits_toDigitsCore (fuel : Nat) : ∀ n : Nat, n < fuel →
    parseDigits (Nat.toDigitsCore 10 fuel n []) = n := by
  induction fuel with
  | zero => intro n h; omega
  | succ f ih =>
    intro n h
    simp only [Nat.toDigitsCore]
    split
    · next h0 =>
      have h10 : n < 10 := by omega
      have : n % 10 = n := Nat.mod_eq_of_lt h10
      simp [parseDigits, this, digitVal_digitChar n h10]
    · next h0 =>
      rw [toDigitsCore_append f (n / 10) [Nat.digitChar (n % 10)], parseDigits_append]
      have hdiv : n / 10 < n := Nat.div_lt_self (by omega) (by omega)
      rw [ih (n / 10) (by omega)]
      rw [digitVal_digitChar (n % 10) (Nat.mod_lt _ (by omega))]
      omega

theorem toDigitsCore_ne_underscore (fuel : Nat) : ∀ (n : Nat) (ds : List Char),
    (∀ c ∈ ds, c ≠ '_') → ∀ c ∈ Nat.toDigitsCore 10 fuel n ds, c ≠ '_' := by
  induction fuel with
  | zero => intro n ds hds; simpa [Nat.toDigitsCore] using hds
  | succ f ih =>
    intro n ds hds
    simp only [Nat.toDigitsCore]
    split
    · intro c hc
      rcases List.mem_cons.mp hc with h1 | h1
      · subst h1; exact digitChar_ne_underscore _
      · exact hds c h1
    · refine ih (n / 10) _ ?_
      intro c hc
      rcases List.mem_cons.mp hc with h1 | h1
      · subst h1; exact digitChar_ne_underscore _
      · exact hds c h1

theorem repr_data (n : Nat) : (Nat.repr n).data = Nat.toDigitsCore 10 (n + 1) n [] := rfl

theorem repr_ne_underscore (n : Nat) : ∀ c ∈ (Nat.repr n).data, c ≠ '_' := by
  rw [repr_data]
  exact toDigitsCore_ne_underscore (n + 1) n [] (by simp)

theorem repr_injective {a b : Nat} (h : Nat.repr a = Nat.repr b) : a = b := by
  have hd : (Nat.repr a).data = (Nat.repr b).data := congrArg String.data h
  rw [repr_data, repr_data] at hd
  have ha := parseDigits_toDigitsCore (a + 1) a (by omega)
  have hb := parseDigits_toDigitsCore (b + 1) b (by omega)
  rw [hd, hb] at ha
  omega

/-! ### Splitting a character list at a separator the left part avoids -/

theorem takeWhile_sep (t : List Char) (l : List Char) (h : ∀ c ∈ l, c ≠ '_') :
    (l ++ '_' :: t).takeWhile (fun c => c != '_') = l := by
  induction l with
  | nil => simp
  | cons x xs ih =>
    have hx : (x != '_') = true := by simpa using h x (List.mem_cons_self x xs)
    simp only [List.cons_append, List.takeWhile_cons, hx, if_true]
    simp [ih (fun c hc => h c (List.mem_cons_of_mem x hc))]

theorem dropWhile_sep (t : List Char) (l : List Char) (h : ∀ c ∈ l, c ≠ '_') :
    (l ++ '_' :: t).dropWhile (fun c => c != '_') = '_' :: t := by
  induction l with
  | nil => simp
  | cons x xs ih =>
    have hx : (x != '_') = true := by simpa using h x (List.mem_cons_self x xs)
    simp only [List.cons_append, List.dropWhile_cons, hx, if_true]
    simp [ih (fun c hc => h c (List.mem_cons_of_mem x hc))]

theorem string_data_append (a b : String) : (a ++ b).data = a.data ++ b.data := by
  cases a
  cases b
  rfl

/-- Injectivity of the `{base}_{i}` id format used by the node expander:
the last separator recovers both components because decimal digits never
contain an underscore. -/
theorem sep_id_injective {b₁ b₂ : String} {i₁ i₂ : Nat}
    (h : b₁ ++ "_" ++ Nat.repr i₁ = b₂ ++ "_" ++ Nat.repr i₂) : b₁ = b₂ ∧ i₁ = i₂ := by
  have hd : b₁.data ++ '_' :: (Nat.repr i₁).data = b₂.data ++ '_' :: (Nat.repr i₂).data := by
    have := congrArg String.data h
    simpa [string_data_append] using this
  have hrev : (Nat.repr i₁).data.reverse ++ '_' :: b₁.data.reverse
      = (Nat.repr i₂).data.reverse ++ '_' :: b₂.data.reverse := by
    have := congrArg List.reverse hd
    simpa using this
  have hne₁ : ∀ c ∈ (Nat.repr i₁).data.reverse, c ≠ '_' := by
    intro c hc
    exact repr_ne_underscore i₁ c (List.mem_reverse.mp hc)
  have hne₂ : ∀ c ∈ (Nat.repr i₂).data.reverse, c ≠ '_' := by
    intro c hc
    exact repr_ne_underscore i₂ c (List.mem_reverse.mp hc)
  have htake := congrArg (List.takeWhile (fun c => c != '_')) hrev
  rw [takeWhile_sep _ _ hne₁, takeWhile_sep _ _ hne₂] at htake
  have hdrop := congrArg (List.dropWhile (fun c => c != '_')) hrev
  rw [dropWhile_sep _ _ hne₁, dropWhile_sep _ _ hne₂] at hdrop
  constructor
  · apply String.ext
    have h1 := List.cons_injective hdrop
    have h2 := congrArg List.reverse h1
    simpa using h2
  · apply repr_injective
    apply String.ext
    have := congrArg List.reverse htake
    simpa using this

/-- Injectivity in the index of the synthesized edge-id format
`e_{idx}_{src}_to_{tgt}`: the first separator after `"e_"` delimits the
decimal index. -/
theorem edge_id_index_injective {i₁ i₂ : Nat} {r₁ r₂ : String}
    (h : "e_" ++ Nat.repr i₁ ++ "_" ++ r₁ = "e_" ++ Nat.repr i₂ ++ "_" ++ r₂) : i₁ = i₂ := by
  have hd0 := congrArg String.data h
  simp only [string_data_append] at hd0
  have hd : (Nat.repr i₁).data ++ '_' :: r₁.data = (Nat.repr i₂).data ++ '_' :: r₂.data := by
    simp only [List.append_assoc, List.cons_append, List.nil_append] at hd0
    injection hd0 with _ h2
    injection h2
  have htake := congrArg (List.takeWhile (fun c => c != '_')) hd
  rw [takeWhile_sep _ _ (repr_ne_underscore i₁), takeWhile_sep _ _ (repr_ne_underscore i₂)]
    at htake
  apply repr_injective
  exact String.ext htake

/-! ### Data model

`NodeGroup` is one entry of the IR's `nodes` list (`label`/`count` may be
absent).  `NodeData` / `EdgeData` are the `"data"` payloads of the output
elements.  Errors raised by the Python code are modelled with `PyErr`,
distinguishing `ValueError` (structured validation error) from
`IndexError` (an unhandled indexing slip). -/

structure NodeGroup where
  id : String
  label : Option String := none
  count : Option Int := none
  deriving Repr, DecidableEq

structure NodeData where
  id : String
  label : String
  type : String
  color : String
  deriving Repr, DecidableEq

structure EdgeData where
  source : String
  target : String
  id : Option String := none
  deriving Repr, DecidableEq

inductive Element where
  | node (d : NodeData)
  | edge (d : EdgeData)
  deriving Repr, DecidableEq

inductive PyErr where
  | valueError (msg : String)
  | indexError (msg : String)
  deriving Repr, DecidableEq

def isErr {α : Type} : Except PyErr α → Bool
  | .error _ => true
  | .ok _ => false

/-- Python `str.strip()`: remove leading and trailing whitespace. -/
def pyStrip (s : String) : String :=
  ⟨((s.data.dropWhile Char.isWhitespace).reverse.dropWhile Char.isWhitespace).reverse⟩

/-- Python `nid.rsplit("_", 1)[0]`: everything before the last underscore,
or the whole string when it has no underscore. -/
def rsplitBase (s : String) : String :=
  if '_' ∈ s.data then
    ⟨((s.data.reverse.dropWhile (fun c => c != '_')).drop 1).reverse⟩
  else s

theorem rsplitBase_append (b : String) (i : Nat) :
    rsplitBase (b ++ "_" ++ Nat.repr i) = b := by
  unfold rsplitBase
  have hdata : (b ++ "_" ++ Nat.repr i).data = b.data ++ '_' :: (Nat.repr i).data := by
    simp [string_data_append]
  rw [hdata, if_pos (by simp)]
  have hrev : (b.data ++ '_' :: (Nat.repr i).data).reverse
      = (Nat.repr i).data.reverse ++ '_' :: b.data.reverse := by
    simp
  rw [hrev, dropWhile_sep _ _ (fun c hc => repr_ne_underscore i c (List.mem_reverse.mp hc))]
  simp

/-! ### Insertion-ordered grouping (`dict.setdefault(base, []).append(nid)`) -/

def insertPair (acc : List (String × List String)) (k v : String) :
    List (String × List String) :=
  match acc with
  | [] => [(k, [v])]
  | (k', vs) :: rest =>
    if k' = k then (k', vs ++ [v]) :: rest else (k', vs) :: insertPair rest k v

def groupPairsAux (acc : List (String × List String)) :
    List (String × String) → List (String × List String)
  | [] => acc
  | (k, v) :: ps => groupPairsAux (insertPair acc k v) ps

def groupPairs (ps : List (String × String)) : List (String × List String) :=
  groupPairsAux [] ps

/-- `by_type.get(k)` / `by_type[k]` lookup. -/
def lookupGroup (m : List (String × List String)) (k : String) : Option (List String) :=
  (m.find? (fun p => p.1 == k)).map (fun p => p.2)

theorem lookupGroup_nil (k : String) : lookupGroup [] k = none := rfl

theorem lookupGroup_cons (k0 : String) (vs0 : List String)
    (m : List (String × List String)) (k' : String) :
    lookupGroup ((k0, vs0) :: m) k' = if k0 = k' then some vs0 else lookupGroup m k' := by
  by_cases h : k0 = k'
  · simp [lookupGroup, List.find?, h]
  · have hb : ((k0, vs0).1 == k') = false := by simpa using h
    simp only [lookupGroup, List.find?, hb, if_neg h]

theorem lookupGroup_insertPair (acc : List (String × List String)) (k v k' : String) :
    lookupGroup (insertPair acc k v) k' =
      if k' = k then some ((lookupGroup acc k).getD [] ++ [v]) else lookupGroup acc k' := by
  induction acc with
  | nil =>
    simp only [insertPair, lookupGroup_nil, lookupGroup_cons]
    by_cases h : k' = k
    · subst h; simp
    · rw [if_neg (fun hc => h hc.symm), if_neg h]
  | cons p rest ih =>
    obtain ⟨k0, vs0⟩ := p
    simp only [insertPair]
    by_cases h0 : k0 = k
    · subst h0
      by_cases h : k0 = k'
      · subst h
        simp [lookupGroup_cons]
      · have h' : ¬(k' = k0) := fun hc => h hc.symm
        simp [lookupGroup_cons, h, h']
    · by_cases h2 : k0 = k'
      · subst h2
        simp [lookupGroup_cons, h0]
      · by_cases h : k' = k
        · subst h
          simp [lookupGroup_cons, h0, h2, ih]
        · simp [lookupGroup_cons, h0, h2, h, ih]

theorem lookupGroup_groupPairsAux (ps : List (String × String)) :
    ∀ (acc : List (String × List String)) (k : String),
      lookupGroup (groupPairsAux acc ps) k =
        match lookupGroup acc k with
        | some vs => some (vs ++ (ps.filter (fun p => p.1 == k)).map Prod.snd)
        | none =>
          if (ps.filter (fun p => p.1 == k)).map Prod.snd = [] then none
          else some ((ps.filter (fun p => p.1 == k)).map Prod.snd) := by
  induction ps with
  | nil =>
    intro acc k
    cases h : lookupGroup acc k <;> simp [groupPairsAux, h]
  | cons p rest ih =>
    intro acc k
    obtain ⟨pk, pv⟩ := p
    simp only [groupPairsAux]
    rw [ih]
    rw [lookupGroup_insertPair]
    by_cases h : k = pk
    · subst h
      simp only [if_pos rfl, List.filter_cons]
      cases hl : lookupGroup acc k <;> simp [hl, beq_self_eq_true]
    · have hne : (pk == k) = false := by
        simp only [beq_eq_false_iff_ne, ne_eq]
        exact fun hc => h hc.symm
      simp only [if_neg h, List.filter_cons, hne]
      split <;> rfl

/-- `by_type` lookup after grouping equals filtering the original pair list. -/
theorem lookupGroup_groupPairs (ps : List (String × String)) (k : String) :
    lookupGroup (groupPairs ps) k =
      if (ps.filter (fun p => p.1 == k)).map Prod.snd = [] then none
      else some ((ps.filter (fun p => p.1 == k)).map Prod.snd) := by
  rw [groupPairs, lookupGroup_groupPairsAux ps [] k]
  rfl

theorem lookupGroup_groupPairs_isSome {ps : List (String × String)} {k : String}
    {vs : List String} (h : lookupGroup (groupPairs ps) k = some vs) :
    k ∈ ps.map Prod.fst := by
  rw [lookupGroup_groupPairs] at h
  split at h
  · exact absurd h (by simp)
  · next hne =>
    have : ps.filter (fun p => p.1 == k) ≠ [] := by
      intro hc
      exact hne (by simp [hc])
    obtain ⟨p, hp⟩ := List.exists_mem_of_ne_nil _ this
    have hmem := List.mem_of_mem_filter hp
    have hk : p.1 = k := by simpa using List.of_mem_filter hp
    exact hk ▸ List.mem_map_of_mem Prod.fst hmem

/-! ### Node expansion and colors (`GraphBuilder`) -/

def palette : List String :=
  ["#1f77b4", "#ff7f0e", "#2ca02c", "#d62728", "#9467bd",
   "#8c564b", "#e377c2", "#7f7f7f", "#bcbd22", "#17becf"]

/-- `GraphBuilder._color_for_type`: `palette[abs(hash(node_type)) % len(palette)]`.
CPython's builtin `hash` on strings is salted with a per-process random value
(`PYTHONHASHSEED`), so the embedding takes the process's string-hash function
as the parameter `pyHash`. -/
def colorForType (pyHash : String → Int) (t : String) : String :=
  palette.getD ((pyHash t).natAbs % palette.length) ""

/-- `int(group.get("count", 1) or 1)`: an absent or zero (falsy) count is 1. -/
def effectiveCount (g : NodeGroup) : Int :=
  match g.count with
  | none => 1
  | some c => if c = 0 then 1 else c

/-- `GraphBuilder._expand_node_instances`: each group becomes instances
`{base}_{1} .. {base}_{count}`; groups whose stripped id is empty are
skipped. -/
def expandNodeInstances (pyHash : String → Int) (groups : List NodeGroup) : List NodeData :=
  groups.flatMap (fun g =>
    let baseId := pyStrip g.id
    let label0 := pyStrip (match g.label with | none => baseId | some l => l)
    let label := if label0 = "" then baseId else label0
    if baseId = "" then []
    else (List.range' 1 (effectiveCount g).toNat).map (fun i =>
      { id := baseId ++ "_" ++ Nat.repr i
        label := label
        type := baseId
        color := colorForType pyHash baseId }))

example :
    (expandNodeInstances (fun _ => 0)
        [⟨"students", some "Students", some 2⟩]).map (fun n => n.id)
      = ["students_1", "students_2"] := by
  decide

example :
    (expandNodeInstances (fun _ => 3) [⟨"t", none, none⟩]).map (fun n => n.color)
      = ["#d62728"] := by
  decide

/-! ### Topology parameters

Python merges user-supplied params over each topology's `default_params`
(`TopologyDefinition.merge_params`, user keys win).  The record below holds
the topology-specific keys; `none` models an absent key, for which the
topology's default applies at the use site exactly as in the source. -/

inductive BranchFactor where
  | int (n : Int)
  | list (l : List Int)
  deriving Repr, DecidableEq

structure Params where
  center : Option String := none
  connections : Option (List (String × List String)) := none
  levels : Option (List String) := none
  branch_factor : Option BranchFactor := none
  node_type : Option String := none
  k : Option Int := none
  rewiring_prob : Option Rat := none
  deriving Repr, DecidableEq

/-- The `by_type` dict every topology builds: node ids grouped by
`nid.rsplit("_", 1)[0]` in insertion order. -/
def byTypeOf (ids : List String) : List (String × List String) :=
  groupPairs (ids.map (fun nid => (rsplitBase nid, nid)))

/-! ### Star topology (`StarTopology.build_edges`) -/

/-- Cases A and B of the source's center resolution: an explicit
`params.center` matching a type (all its instances) or an exact node id. -/
def starCenterCandidates (byType : List (String × List String))
    (centerParam : Option String) : List String :=
  match centerParam with
  | some cp =>
    match lookupGroup byType cp with
    | some ids => ids
    | none => if (byType.flatMap (fun pr => pr.2)).contains cp then [cp] else []
  | none => []

/-- Case C: fall back to the first type with exactly one instance. -/
def starCenterResolved (byType : List (String × List String))
    (centerParam : Option String) : List String :=
  let a := starCenterCandidates byType centerParam
  if a.isEmpty then
    match byType.find? (fun pr => pr.2.length == 1) with
    | some pr => pr.2
    | none => []
  else a

/-- Center resolution, cases A-D of the source; `none` means the final
fallback `nodes[0]` raised `IndexError` on an empty node list. -/
def starCenter (nodes : List NodeData) (p : Params) : Option String :=
  let byType := byTypeOf (nodes.map (fun n => n.id))
  match starCenterResolved byType p.center with
  | c :: _ => some c
  | [] => (nodes.head?).map (fun n => n.id)

def starBuildEdges (nodes : List NodeData) (p : Params) : Except PyErr (List EdgeData) :=
  match starCenter nodes p with
  | none => .error (.indexError "list index out of range")
  | some center =>
    .ok ((nodes.filter (fun n => n.id != center)).map (fun n => ⟨center, n.id, none⟩))

/-! ### Pipeline topology (`PipelineTopology.build_edges`) -/

/-- The `index` dict `{nid: i for i, nid in enumerate(ordered_ids)}`: for a
duplicated id the later index wins.  The `0` default is unreachable in the
source (`index[...]` is consulted only for keys resolved from `ordered_ids`). -/
def pyIndex (ids : List String) (nid : String) : Nat :=
  match (ids.enum.filter (fun pr => pr.2 == nid)).getLast? with
  | some pr => pr.1
  | none => 0

/-- `resolve(key)`: a node type expands to its instances, a node id to
itself, anything else to nothing. -/
def pipelineResolve (byType : List (String × List String)) (orderedIds : List String)
    (key : String) : List String :=
  match lookupGroup byType key with
  | some ids => ids
  | none => if orderedIds.contains key then [key] else []

/-- Innermost loop `for tgt in tgt_nodes` with the forward-only check. -/
def pipePairTgts (idx : String → Nat) (s : String) : List String → Except PyErr (List EdgeData)
  | [] => .ok []
  | t :: ts =>
    if idx t ≤ idx s then
      .error (.valueError ("Invalid pipeline edge " ++ s ++ " → " ++ t ++
        ": edges must go forward only."))
    else
      match pipePairTgts idx s ts with
      | .ok es => .ok (⟨s, t, none⟩ :: es)
      | .error e => .error e

/-- Loop `for src in src_nodes`. -/
def pipeSrcs (idx : String → Nat) (tgts : List String) :
    List String → Except PyErr (List EdgeData)
  | [] => .ok []
  | s :: ss =>
    match pipePairTgts idx s tgts with
    | .error e => .error e
    | .ok es₁ =>
      match pipeSrcs idx tgts ss with
      | .error e => .error e
      | .ok es₂ => .ok (es₁ ++ es₂)

/-- Loop `for tgt_key in tgt_keys`. -/
def pipeTgtKeys (idx : String → Nat) (resolve : String → List String) (srcs : List String) :
    List String → Except PyErr (List EdgeData)
  | [] => .ok []
  | tk :: tks =>
    match pipeSrcs idx (resolve tk) srcs with
    | .error e => .error e
    | .ok es₁ =>
      match pipeTgtKeys idx resolve srcs tks with
      | .error e => .error e
      | .ok es₂ => .ok (es₁ ++ es₂)

/-- Loop `for src_key, tgt_keys in connections.items()`. -/
def pipeConns (idx : String → Nat) (resolve : String → List String) :
    List (String × List String) → Except PyErr (List EdgeData)
  | [] => .ok []
  | (sk, tks) :: rest =>
    match pipeTgtKeys idx resolve (resolve sk) tks with
    | .error e => .error e
    | .ok es₁ =>
      match pipeConns idx resolve rest with
      | .error e => .error e
      | .ok es₂ => .ok (es₁ ++ es₂)

/-- All `(src, tgt)` pairs the connection mapping resolves to, in loop order. -/
def resolvedPairs (resolve : String → List String) (conns : List (String × List String)) :
    List (String × String) :=
  conns.flatMap (fun st =>
    st.2.flatMap (fun tk => (resolve st.1).flatMap (fun s => (resolve tk).map (fun t => (s, t)))))

def pipelineBuildEdges (nodes : List NodeData) (p : Params) : Except PyErr (List EdgeData) :=
  if nodes.length < 2 then .ok []
  else
    let orderedIds := nodes.map (fun n => n.id)
    let idx := pyIndex orderedIds
    let byType := byTypeOf orderedIds
    match p.connections with
    | none => .ok ((orderedIds.zip orderedIds.tail).map (fun pr => ⟨pr.1, pr.2, none⟩))
    | some [] => .ok ((orderedIds.zip orderedIds.tail).map (fun pr => ⟨pr.1, pr.2, none⟩))
    | some conns => pipeConns idx (pipelineResolve byType orderedIds) conns

/-! ### Hierarchy topology (`HierarchyTopology.build_edges`) -/

def hierPriority : List String := ["administrator", "principal", "teacher", "student"]

/-- Level inference: explicit `params.levels` wins; `if not levels` treats
`None` and an explicit empty list alike and infers from the priority list. -/
def hierLevels (byType : List (String × List String)) (p : Params) : List String :=
  match p.levels with
  | none => hierPriority.filter (fun t => (lookupGroup byType t).isSome)
  | some [] => hierPriority.filter (fun t => (lookupGroup byType t).isSome)
  | some ls => ls

/-- Branch-factor normalization: an int is broadcast over all transitions,
an empty (falsy) list is replaced by the default 2. -/
def hierBranchFactors (p : Params) (numLevels : Nat) : List Int :=
  let bf : List Int :=
    match p.branch_factor with
    | none => List.replicate (numLevels - 1) 2
    | some (.int n) => List.replicate (numLevels - 1) n
    | some (.list l) => l
  if bf = [] then List.replicate (numLevels - 1) 2 else bf

/-- `for _ in range(fanout)` with the `child_idx >= len(children)` break;
returns the emitted edges and the advanced `child_idx`. -/
def fanLoop (pid : String) (children : List String) : Nat → Nat → List EdgeData × Nat
  | 0, ci => ([], ci)
  | f + 1, ci =>
    if children.length ≤ ci then ([], ci)
    else
      let rest := fanLoop pid children f (ci + 1)
      (⟨pid, children.getD ci "", none⟩ :: rest.1, rest.2)

/-- `for p in parents`, threading `child_idx`. -/
def parentsLoop (children : List String) (fanout : Nat) :
    List String → Nat → List EdgeData × Nat
  | [], ci => ([], ci)
  | pid :: ps, ci =>
    let r₁ := fanLoop pid children fanout ci
    let r₂ := parentsLoop children fanout ps r₁.2
    (r₁.1 ++ r₂.1, r₂.2)

/-- The tree-building loop over level transitions; `branch_factor[i]` on a
too-short user list raises `IndexError`. -/
def hierTreeGo (byType : List (String × List String)) (bf : List Int) (levels : List String) :
    List Nat → Except PyErr (List EdgeData)
  | [] => .ok []
  | i :: is =>
    let parents := (lookupGroup byType (levels.getD i "")).getD []
    let children := (lookupGroup byType (levels.getD (i + 1) "")).getD []
    if parents.isEmpty || children.isEmpty then hierTreeGo byType bf levels is
    else
      match bf.get? i with
      | none => .error (.indexError "list index out of range")
      | some f =>
        match hierTreeGo byType bf levels is with
        | .error e => .error e
        | .ok es => .ok ((parentsLoop children f.toNat parents 0).1 ++ es)

def hierarchyBuildEdges (nodes : List NodeData) (p : Params) : Except PyErr (List EdgeData) :=
  let byType := byTypeOf (nodes.map (fun n => n.id))
  let levels := hierLevels byType p
  let bf := hierBranchFactors p levels.length
  match levels with
  | [] => .error (.indexError "list index out of range")
  | level0 :: rest =>
    let level0Nodes := (lookupGroup byType level0).getD []
    let level1Nodes :=
      match rest.head? with
      | some level1 => if level1 = "" then [] else (lookupGroup byType level1).getD []
      | none => []
    let edges0 : List EdgeData :=
      if level0Nodes.length = 1 ∧ level1Nodes ≠ [] then
        level1Nodes.map (fun c => ⟨level0Nodes.headD "", c, none⟩)
      else if 1 < level0Nodes.length then
        (List.range level0Nodes.length).map (fun i =>
          ⟨level0Nodes.getD i "", level0Nodes.getD ((i + 1) % level0Nodes.length) "", none⟩)
      else []
    let startLevel := if level0Nodes.length = 1 then 1 else 0
    match hierTreeGo byType bf levels (List.range' startLevel (levels.length - 1 - startLevel)) with
    | .error e => .error e
    | .ok es => .ok (edges0 ++ es)

/-! ### Small-world topology (`SmallWorldTopology.build_edges`)

The source consumes the process-global `random` module.  The embedding
threads an explicit random source: `reals` is the stream of `random.random()`
draws (each in `[0, 1)`), `choices` the stream backing `random.choice`
(modelled as an index into the chosen list), with `rpos`/`cpos` the number of
draws consumed from each. -/

structure Rng where
  reals : Nat → Rat
  rpos : Nat := 0
  choices : Nat → Nat
  cpos : Nat := 0

/-- Inner loop `for j in range(1, k // 2 + 1)` for one source node. -/
def swInner (prob : Rat) (nodeIds : List String) (n : Nat) (i : Nat) (src : String) :
    List Nat → Rng → List EdgeData × Rng
  | [], rng => ([], rng)
  | j :: js, rng =>
    let tgt0 := nodeIds.getD ((i + j) % n) ""
    let r := rng.reals rng.rpos
    let rng₁ : Rng := { rng with rpos := rng.rpos + 1 }
    if r < prob then
      let t := nodeIds.getD (rng₁.choices rng₁.cpos % n) ""
      let rng₂ : Rng := { rng₁ with cpos := rng₁.cpos + 1 }
      if t == src then swInner prob nodeIds n i src js rng₂
      else
        let rest := swInner prob nodeIds n i src js rng₂
        (⟨src, t, none⟩ :: rest.1, rest.2)
    else
      let rest := swInner prob nodeIds n i src js rng₁
      (⟨src, tgt0, none⟩ :: rest.1, rest.2)

/-- Outer loop `for i, src in enumerate(node_ids)`. -/
def swOuter (prob : Rat) (nodeIds : List String) (n : Nat) (jList : List Nat) :
    List (Nat × String) → Rng → List EdgeData × Rng
  | [], rng => ([], rng)
  | (i, src) :: rest, rng =>
    let r₁ := swInner prob nodeIds n i src jList rng
    let r₂ := swOuter prob nodeIds n jList rest r₁.2
    (r₁.1 ++ r₂.1, r₂.2)

/-- The ids the small-world structure applies to: all nodes, or the
instances of `params.node_type` when that is truthy. -/
def swEligibleIds (nodes : List NodeData) (p : Params) : List String :=
  let allIds := nodes.map (fun n => n.id)
  match p.node_type with
  | some t => if t = "" then allIds else (lookupGroup (byTypeOf allIds) t).getD []
  | none => allIds

def smallWorldBuildEdges (nodes : List NodeData) (p : Params) (rng : Rng) :
    List EdgeData × Rng :=
  let k₀ : Int := p.k.getD 4
  let prob : Rat := p.rewiring_prob.getD (1 / 10)
  let nodeIds := swEligibleIds nodes p
  let n : Nat := nodeIds.length
  if n < 3 then ([], rng)
  else
    let k₁ := min k₀ (Int.ofNat n - 1)
    let k₂ := if k₁ % 2 ≠ 0 then k₁ - 1 else k₁
    let m := Int.fdiv k₂ 2
    let jList := if m ≤ 0 then [] else List.range' 1 m.toNat
    swOuter prob nodeIds n jList nodeIds.enum rng

/-! ### Edge ids and the orchestrator (`GraphBuilder`) -/

def edgeIdStr (i : Nat) (src tgt : String) : String :=
  "e_" ++ Nat.repr i ++ "_" ++ src ++ "_to_" ++ tgt

/-- `GraphBuilder._ensure_edge_ids` (1-based enumeration).  Malformed edge
entries (non-dicts, missing `"data"`) are unrepresentable in the typed
embedding, so the source's skip branch has no counterpart here. -/
def ensureEdgeIdsAux : Nat → List EdgeData → List EdgeData
  | _, [] => []
  | i, e :: es =>
    (match e.id with
     | some _ => e
     | none => { e with id := some (edgeIdStr i e.source e.target) }) ::
      ensureEdgeIdsAux (i + 1) es

def ensureEdgeIds (es : List EdgeData) : List EdgeData := ensureEdgeIdsAux 1 es

/-- `GraphBuilder.build`: validate, expand, dispatch on the registered
topology name, assign edge ids, and concatenate nodes then edges.  The
random source is passed through to the small-world algorithm exactly where
the source consumes the global one. -/
def build (irTopology : String) (irNodes : List NodeGroup) (irParams : Params)
    (pyHash : String → Int) (rng : Rng) : Except PyErr (List Element × Rng) :=
  if irTopology = "" then .error (.valueError "IR missing required field: topology")
  else
    let flat := expandNodeInstances pyHash irNodes
    let finish := fun (es : List EdgeData) (rng' : Rng) =>
      (flat.map Element.node ++ (ensureEdgeIds es).map Element.edge, rng')
    match irTopology with
    | "hierarchy" => (hierarchyBuildEdges flat irParams).map (fun es => finish es rng)
    | "pipeline" => (pipelineBuildEdges flat irParams).map (fun es => finish es rng)
    | "small_world" =>
      let r := smallWorldBuildEdges flat irParams rng
      .ok (finish r.1 r.2)
    | "star" => (starBuildEdges flat irParams).map (fun es => finish es rng)
    | _ => .error (.valueError ("Unsupported topology: " ++ irTopology))

/-! ### Loader registration (`TopologyLoader._load_topologies` and
`TopologyDefinition.sanity_check`) -/

/-- A discovered `TopologyDefinition` subclass as the loader sees it: the
attribute values after Python's class-attribute lookup.  The base class
supplies the defaults `name = None`, `description = ""`, `ir_hints = ""`,
`params_schema = {}`, `ir_example = {}`, so every subclass has every
attribute.  `irExampleTopology` is the value of `ir_example["topology"]`
when that key is present (`none` = key absent); `irExampleHasNodes` is
whether `"nodes"` is a key of `ir_example`. -/
structure TopoClass where
  name : Option String := none
  description : String := ""
  ir_hints : String := ""
  paramsSchemaKeys : List String := []
  irExampleTopology : Option (Option String) := none
  irExampleHasNodes : Bool := false
  deriving Repr, DecidableEq

/-- `TopologyDefinition.sanity_check` as a predicate: `True` iff none of its
assertions fires.  The `isinstance` assertions always hold in the typed
embedding. -/
def sanityCheck (c : TopoClass) : Bool :=
  (match c.name with
   | some s => !(s == "")
   | none => false)
  && !(c.description == "")
  && c.irExampleTopology.isSome
  && (c.irExampleTopology.getD none == c.name)
  && c.irExampleHasNodes

/-- The loader's only per-class gate before `self.topologies[obj.name] = obj`
is `hasattr(obj, "name")` — which every subclass passes, because the base
class itself defines the class attribute `name = None`.  The loader never
calls `sanity_check`. -/
def loaderRegisters (c : TopoClass) : Bool :=
  c.name.isSome || true

/-- A topology definition that violates `sanity_check` (inherits the empty
`description` and the empty `ir_example`). -/
def brokenTopo : TopoClass := { name := some "broken" }

/-! ### Full-mesh topology -/

/-- Modelled from the spec: the repository's IR schema (`ir_schema.py`) lists
`"p2p"` among the topologies, but no full-mesh implementation module is
present under `src/backend/engine/visualization/topologies/`.  Per the spec,
every unordered pair of distinct nodes gets exactly one directed edge, with
the earlier-indexed node as source. -/
def p2pBuildEdges : List NodeData → List EdgeData
  | [] => []
  | n :: rest => rest.map (fun m => ⟨n.id, m.id, none⟩) ++ p2pBuildEdges rest

def dummyNode : NodeData := ⟨"", "", "", ""⟩

theorem p2p_source_target_mem (nodes : List NodeData) :
    ∀ e ∈ p2pBuildEdges nodes,
      e.source ∈ nodes.map (fun n => n.id) ∧ e.target ∈ nodes.map (fun n => n.id) := by
  induction nodes with
  | nil => intro e he; simp [p2pBuildEdges] at he
  | cons n rest ih =>
    intro e he
    rcases List.mem_append.mp he with h1 | h1
    · obtain ⟨m, hm, rfl⟩ := List.mem_map.mp h1
      refine ⟨by simp, ?_⟩
      simp only [List.map_cons, List.mem_cons]
      exact Or.inr (List.mem_map_of_mem _ hm)
    · obtain ⟨hs, ht⟩ := ih e h1
      simp only [List.map_cons, List.mem_cons]
      exact ⟨Or.inr hs, Or.inr ht⟩

theorem p2p_length (nodes : List NodeData) :
    2 * (p2pBuildEdges nodes).length = nodes.length * (nodes.length - 1) := by
  induction nodes with
  | nil => simp [p2pBuildEdges]
  | cons n rest ih =>
    simp only [p2pBuildEdges, List.length_append, List.length_map, List.length_cons]
    cases hr : rest.length with
    | zero =>
      have : rest = [] := List.length_eq_zero.mp hr
      subst this
      simp [p2pBuildEdges]
    | succ m =>
      rw [hr] at ih
      calc 2 * (m + 1 + (p2pBuildEdges rest).length)
          = 2 * (m + 1) + 2 * (p2pBuildEdges rest).length := by ring
        _ = 2 * (m + 1) + (m + 1) * (m + 1 - 1) := by rw [ih]
        _ = (m + 1 + 1) * (m + 1 + 1 - 1) := by simp; ring

theorem p2p_pair_mem (nodes : List NodeData) :
    ∀ i j, i < j → j < nodes.length →
      (⟨(nodes.getD i dummyNode).id, (nodes.getD j dummyNode).id, none⟩ : EdgeData)
        ∈ p2pBuildEdges nodes := by
  induction nodes with
  | nil => intro i j hij hj; simp at hj
  | cons n rest ih =>
    intro i j hij hj
    simp only [List.length_cons] at hj
    cases i with
    | zero =>
      cases j with
      | zero => omega
      | succ j' =>
        apply List.mem_append.mpr
        left
        have hj'' : j' < rest.length := by omega
        simp only [List.getD_cons_zero, List.getD_cons_succ]
        refine List.mem_map.mpr ⟨rest.getD j' dummyNode, ?_, rfl⟩
        rw [List.getD_eq_getElem rest dummyNode hj'']
        exact List.getElem_mem hj''
    | succ i' =>
      cases j with
      | zero => omega
      | succ j' =>
        apply List.mem_append.mpr
        right
        simp only [List.getD_cons_succ]
        exact ih i' j' (by omega) (by omega)

theorem p2p_mem_char (nodes : List NodeData) :
    ∀ e ∈ p2pBuildEdges nodes, ∃ i j, i < j ∧ j < nodes.length ∧
      e = ⟨(nodes.getD i dummyNode).id, (nodes.getD j dummyNode).id, none⟩ := by
  induction nodes with
  | nil => intro e he; simp [p2pBuildEdges] at he
  | cons n rest ih =>
    intro e he
    rcases List.mem_append.mp he with h1 | h1
    · obtain ⟨m, hm, rfl⟩ := List.mem_map.mp h1
      obtain ⟨j', hj', hm'⟩ := List.mem_iff_getElem.mp hm
      refine ⟨0, j' + 1, by omega, by simp; omega, ?_⟩
      simp only [List.getD_cons_zero, List.getD_cons_succ]
      rw [List.getD_eq_getElem rest dummyNode hj', hm']
    · obtain ⟨i, j, hij, hj, he'⟩ := ih e h1
      refine ⟨i + 1, j + 1, by omega, by simp; omega, ?_⟩
      simpa only [List.getD_cons_succ] using he'

theorem p2p_nodup (nodes : List NodeData) (h : (nodes.map (fun n => n.id)).Nodup) :
    (p2pBuildEdges nodes).Nodup := by
  induction nodes with
  | nil => simp [p2pBuildEdges]
  | cons n rest ih =>
    simp only [List.map_cons, List.nodup_cons] at h
    obtain ⟨hn, hrest⟩ := h
    refine List.Nodup.append ?_ (ih hrest) ?_
    · rw [show rest.map (fun m => (⟨n.id, m.id, none⟩ : EdgeData))
          = (rest.map (fun m => m.id)).map (fun t => ⟨n.id, t, none⟩) from by
        rw [List.map_map]; rfl]
      refine List.Nodup.map ?_ hrest
      intro t₁ t₂ ht
      injection ht with _ h2
    · intro e he₁ he₂
      obtain ⟨m, hm, rfl⟩ := List.mem_map.mp he₁
      have hs := (p2p_source_target_mem rest _ he₂).1
      exact hn hs

/-- C2: there is a full-mesh (peer-to-peer) topology whose `build_edges`
returns one directed edge per unordered pair of distinct nodes, with the
earlier-indexed node as source, `N·(N−1)/2` edges in total, each pair
exactly once.  (Modelled from the spec: no mesh implementation module is
present under `src/`.) -/
theorem C2_full_mesh (nodes : List NodeData) (h : (nodes.map (fun n => n.id)).Nodup) :
    2 * (p2pBuildEdges nodes).length = nodes.length * (nodes.length - 1)
    ∧ (∀ i j, i < j → j < nodes.length →
        (⟨(nodes.getD i dummyNode).id, (nodes.getD j dummyNode).id, none⟩ : EdgeData)
          ∈ p2pBuildEdges nodes)
    ∧ (∀ e ∈ p2pBuildEdges nodes, ∃ i j, i < j ∧ j < nodes.length ∧
        e = ⟨(nodes.getD i dummyNode).id, (nodes.getD j dummyNode).id, none⟩)
    ∧ (p2pBuildEdges nodes).Nodup :=
  ⟨p2p_length nodes, p2p_pair_mem nodes, p2p_mem_char nodes, p2p_nodup nodes h⟩

def p2pNodes3 : List NodeData := expandNodeInstances (fun _ => 0) [⟨"x", none, some 3⟩]

/-- Witness for C2 at three concrete nodes. -/
theorem C2_full_mesh_witness :
    (p2pNodes3.map (fun n => n.id)).Nodup
    ∧ (2 * (p2pBuildEdges p2pNodes3).length = p2pNodes3.length * (p2pNodes3.length - 1)
      ∧ (∀ i j, i < j → j < p2pNodes3.length →
          (⟨(p2pNodes3.getD i dummyNode).id, (p2pNodes3.getD j dummyNode).id, none⟩ : EdgeData)
            ∈ p2pBuildEdges p2pNodes3)
      ∧ (∀ e ∈ p2pBuildEdges p2pNodes3, ∃ i j, i < j ∧ j < p2pNodes3.length ∧
          e = ⟨(p2pNodes3.getD i dummyNode).id, (p2pNodes3.getD j dummyNode).id, none⟩)
      ∧ (p2pBuildEdges p2pNodes3).Nodup) :=
  ⟨by decide, C2_full_mesh p2pNodes3 (by decide)⟩

/-- C3: contrary to the claim, the loader registers every discovered
subclass: its only check `hasattr(obj, "name")` is vacuously satisfied via
the base class's `name = None` attribute, and `sanity_check` — whose own
docstring says it is "called automatically by the loader" — is never
invoked, so a definition violating it (here: an inherited empty
`description` and empty `ir_example`) is registered silently. -/
theorem C3_loader_never_fails :
    (∀ c : TopoClass, loaderRegisters c = true)
    ∧ loaderRegisters brokenTopo = true
    ∧ sanityCheck brokenTopo = false :=
  ⟨fun c => by simp [loaderRegisters], by decide, by decide⟩

/-- C4: the color of a node type is `palette[abs(hash(t)) % 10]` where
`hash` is CPython's per-process salted string hash; under two processes
whose hash functions differ on the type string, the same type receives two
different palette colors, so the color is not a function of the type string
alone across processes. -/
theorem C4_color_not_process_independent :
    colorForType (fun _ => 0) "student" = "#1f77b4"
    ∧ colorForType (fun _ => 1) "student" = "#ff7f0e"
    ∧ colorForType (fun _ => 0) "student" ≠ colorForType (fun _ => 1) "student" := by
  exact ⟨by decide, by decide, by decide⟩

/-- C1 counterexample: a group with `count = 0` contributes one node
(`int(0 or 1) = 1`), not zero nodes, so the flat-node total is 1 while the
sum of counts is 0. -/
theorem C1_count_zero_counterexample :
    (expandNodeInstances (fun _ => 0) [⟨"g", none, some 0⟩]).map (fun n => n.id) = ["g_1"]
    ∧ (expandNodeInstances (fun _ => 0) [⟨"g", none, some 0⟩]).length ≠ 0 := by
  decide

theorem expand_ids (pyHash : String → Int) (groups : List NodeGroup)
    (h : ∀ g ∈ groups, pyStrip g.id = g.id ∧ g.id ≠ "") :
    (expandNodeInstances pyHash groups).map (fun n => n.id)
      = groups.flatMap (fun g =>
          (List.range' 1 (effectiveCount g).toNat).map (fun i => g.id ++ "_" ++ Nat.repr i)) := by
  induction groups with
  | nil => rfl
  | cons g gs ih =>
    obtain ⟨hstrip, hne⟩ := h g (by simp)
    have ih' := ih (fun x hx => h x (List.mem_cons_of_mem g hx))
    simp only [expandNodeInstances, List.flatMap_cons, List.map_append] at *
    rw [ih']
    congr 1
    rw [hstrip, if_neg hne, List.map_map]
    rfl

theorem expand_length (pyHash : String → Int) (groups : List NodeGroup)
    (h : ∀ g ∈ groups, pyStrip g.id = g.id ∧ g.id ≠ "") :
    (expandNodeInstances pyHash groups).length
      = (groups.map (fun g => (effectiveCount g).toNat)).sum := by
  have h1 := congrArg List.length (expand_ids pyHash groups h)
  simp only [List.length_map] at h1
  rw [h1, List.length_flatMap]
  have hfn : (List.length ∘ fun g : NodeGroup =>
      (List.range' 1 (effectiveCount g).toNat).map (fun i => g.id ++ "_" ++ Nat.repr i))
      = fun g : NodeGroup => (effectiveCount g).toNat := by
    funext g
    simp [List.length_range']
  rw [hfn]

theorem expand_nodup (pyHash : String → Int) (groups : List NodeGroup)
    (h1 : ∀ g ∈ groups, pyStrip g.id = g.id ∧ g.id ≠ "")
    (h2 : (groups.map (fun g => g.id)).Nodup) :
    ((expandNodeInstances pyHash groups).map (fun n => n.id)).Nodup := by
  rw [expand_ids pyHash groups h1]
  rw [List.nodup_flatMap]
  constructor
  · intro g hg
    refine List.Nodup.map ?_ (List.nodup_range' 1 _)
    intro i₁ i₂ hi
    exact (sep_id_injective hi).2
  · have hp : groups.Pairwise (fun a b => a.id ≠ b.id) := List.pairwise_map.mp h2
    refine hp.imp ?_
    intro a b hab
    intro x hx₁ hx₂
    obtain ⟨i, hi, rfl⟩ := List.mem_map.mp hx₁
    obtain ⟨j, hj, hx⟩ := List.mem_map.mp hx₂
    exact hab (sep_id_injective hx.symm).1

/-- C1 (amended): on well-formed groups (stripped non-empty distinct ids),
the expansion produces, per group, exactly the ids `{id}_1 .. {id}_c` where
`c` is the group's count with absent-or-zero counts defaulting to 1, each
id exactly once, and the total equals the sum of those effective counts. -/
theorem C1_expansion (pyHash : String → Int) (groups : List NodeGroup)
    (hids : ∀ g ∈ groups, pyStrip g.id = g.id ∧ g.id ≠ "")
    (hnd : (groups.map (fun g => g.id)).Nodup) :
    (expandNodeInstances pyHash groups).map (fun n => n.id)
      = groups.flatMap (fun g =>
          (List.range' 1 (effectiveCount g).toNat).map (fun i => g.id ++ "_" ++ Nat.repr i))
    ∧ (expandNodeInstances pyHash groups).length
      = (groups.map (fun g => (effectiveCount g).toNat)).sum
    ∧ ((expandNodeInstances pyHash groups).map (fun n => n.id)).Nodup :=
  ⟨expand_ids pyHash groups hids, expand_length pyHash groups hids,
    expand_nodup pyHash groups hids hnd⟩

def c1Groups : List NodeGroup := [⟨"a", none, some 2⟩, ⟨"b", none, none⟩]

/-- Witness for C1 at two concrete groups. -/
theorem C1_expansion_witness :
    ((∀ g ∈ c1Groups, pyStrip g.id = g.id ∧ g.id ≠ "")
      ∧ (c1Groups.map (fun g => g.id)).Nodup)
    ∧ ((expandNodeInstances (fun _ => 0) c1Groups).map (fun n => n.id)
        = c1Groups.flatMap (fun g =>
            (List.range' 1 (effectiveCount g).toNat).map (fun i => g.id ++ "_" ++ Nat.repr i))
      ∧ (expandNodeInstances (fun _ => 0) c1Groups).length
        = (c1Groups.map (fun g => (effectiveCount g).toNat)).sum
      ∧ ((expandNodeInstances (fun _ => 0) c1Groups).map (fun n => n.id)).Nodup) :=
  ⟨⟨by decide, by decide⟩, C1_expansion (fun _ => 0) c1Groups (by decide) (by decide)⟩

/-- C10: with `params.levels` absent or empty and no node type from the
fixed priority list, level inference yields `[]` and `build_edges` raises
an unhandled `IndexError` at `levels[0]` (not a `ValueError`). -/
theorem C10_hierarchy_index_error (nodes : List NodeData) (p : Params)
    (hlv : p.levels = none ∨ p.levels = some [])
    (hty : ∀ n ∈ nodes, rsplitBase n.id ∉ hierPriority) :
    hierarchyBuildEdges nodes p = .error (.indexError "list index out of range") := by
  have hfilter : hierPriority.filter
      (fun t => (lookupGroup (byTypeOf (nodes.map (fun n => n.id))) t).isSome) = [] := by
    rw [List.filter_eq_nil_iff]
    intro t ht
    cases hl : lookupGroup (byTypeOf (nodes.map (fun n => n.id))) t with
    | none => simp
    | some vs =>
      exfalso
      have hk := lookupGroup_groupPairs_isSome hl
      rw [List.map_map] at hk
      obtain ⟨nid, hnid, hfst⟩ := List.mem_map.mp hk
      obtain ⟨n, hn, rfl⟩ := List.mem_map.mp hnid
      have hfst' : rsplitBase n.id = t := hfst
      exact hty n hn (hfst' ▸ ht)
  have hlev : hierLevels (byTypeOf (nodes.map (fun n => n.id))) p = [] := by
    rcases hlv with h | h <;> simp [hierLevels, h, hfilter]
  simp [hierarchyBuildEdges, hlev]

def c10Nodes : List NodeData := expandNodeInstances (fun _ => 0) [⟨"robot", none, some 2⟩]

/-- Witness for C10 at two robot nodes with default params. -/
theorem C10_hierarchy_index_error_witness :
    ((({} : Params).levels = none ∨ ({} : Params).levels = some [])
      ∧ (∀ n ∈ c10Nodes, rsplitBase n.id ∉ hierPriority))
    ∧ hierarchyBuildEdges c10Nodes {} = .error (.indexError "list index out of range") :=
  ⟨⟨Or.inl rfl, by decide⟩, C10_hierarchy_index_error c10Nodes {} (Or.inl rfl) (by decide)⟩

/-! ### Pipeline claim (C5) -/

theorem pipePairTgts_ok (idx : String → Nat) (s : String) (tgts : List String)
    (h : ∀ t ∈ tgts, idx s < idx t) :
    pipePairTgts idx s tgts = .ok (tgts.map (fun t => ⟨s, t, none⟩)) := by
  induction tgts with
  | nil => rfl
  | cons t ts ih =>
    have ht := h t (by simp)
    simp only [pipePairTgts, if_neg (by omega : ¬ idx t ≤ idx s)]
    rw [ih (fun x hx => h x (List.mem_cons_of_mem t hx))]
    rfl

theorem pipePairTgts_err (idx : String → Nat) (s : String) (tgts : List String)
    (h : ∃ t ∈ tgts, idx t ≤ idx s) :
    isErr (pipePairTgts idx s tgts) = true := by
  induction tgts with
  | nil => simp at h
  | cons t ts ih =>
    by_cases hc : idx t ≤ idx s
    · simp [pipePairTgts, hc, isErr]
    · simp only [pipePairTgts, if_neg hc]
      obtain ⟨t', ht', hle⟩ := h
      rcases List.mem_cons.mp ht' with rfl | hmem
      · exact absurd hle hc
      · have hih := ih ⟨t', hmem, hle⟩
        cases hres : pipePairTgts idx s ts with
        | ok es => rw [hres] at hih; simp [isErr] at hih
        | error e => simp [hres, isErr]

theorem pipeSrcs_ok (idx : String → Nat) (tgts srcs : List String)
    (h : ∀ s ∈ srcs, ∀ t ∈ tgts, idx s < idx t) :
    pipeSrcs idx tgts srcs
      = .ok (srcs.flatMap (fun s => tgts.map (fun t => ⟨s, t, none⟩))) := by
  induction srcs with
  | nil => rfl
  | cons s ss ih =>
    simp only [pipeSrcs]
    rw [pipePairTgts_ok idx s tgts (h s (by simp)),
      ih (fun x hx t ht => h x (List.mem_cons_of_mem s hx) t ht)]
    simp [List.flatMap_cons]

theorem pipeSrcs_err (idx : String → Nat) (tgts srcs : List String)
    (h : ∃ s ∈ srcs, ∃ t ∈ tgts, idx t ≤ idx s) :
    isErr (pipeSrcs idx tgts srcs) = true := by
  induction srcs with
  | nil => simp at h
  | cons s ss ih =>
    simp only [pipeSrcs]
    obtain ⟨s', hs', ht'⟩ := h
    cases hres : pipePairTgts idx s tgts with
    | error e => simp [isErr]
    | ok es₁ =>
      rcases List.mem_cons.mp hs' with rfl | hmem
      · exfalso
        have hx := pipePairTgts_err idx s' tgts ht'
        rw [hres] at hx
        simp [isErr] at hx
      · have hih := ih ⟨s', hmem, ht'⟩
        cases hres₂ : pipeSrcs idx tgts ss with
        | error e => simp [isErr]
        | ok es₂ => rw [hres₂] at hih; simp [isErr] at hih

theorem pipeTgtKeys_ok (idx : String → Nat) (resolve : String → List String)
    (srcs tks : List String)
    (h : ∀ tk ∈ tks, ∀ s ∈ srcs, ∀ t ∈ resolve tk, idx s < idx t) :
    pipeTgtKeys idx resolve srcs tks
      = .ok (tks.flatMap (fun tk =>
          srcs.flatMap (fun s => (resolve tk).map (fun t => ⟨s, t, none⟩)))) := by
  induction tks with
  | nil => rfl
  | cons tk tks' ih =>
    simp only [pipeTgtKeys]
    rw [pipeSrcs_ok idx (resolve tk) srcs (fun s hs t ht => h tk (by simp) s hs t ht),
      ih (fun x hx s hs t ht => h x (List.mem_cons_of_mem tk hx) s hs t ht)]
    simp [List.flatMap_cons]

theorem pipeTgtKeys_err (idx : String → Nat) (resolve : String → List String)
    (srcs tks : List String)
    (h : ∃ tk ∈ tks, ∃ s ∈ srcs, ∃ t ∈ resolve tk, idx t ≤ idx s) :
    isErr (pipeTgtKeys idx resolve srcs tks) = true := by
  induction tks with
  | nil => simp at h
  | cons tk tks' ih =>
    simp only [pipeTgtKeys]
    obtain ⟨tk', htk', hrest⟩ := h
    cases hres : pipeSrcs idx (resolve tk) srcs with
    | error e => simp [isErr]
    | ok es₁ =>
      rcases List.mem_cons.mp htk' with rfl | hmem
      · exfalso
        have hx := pipeSrcs_err idx (resolve tk') srcs hrest
        rw [hres] at hx
        simp [isErr] at hx
      · have hih := ih ⟨tk', hmem, hrest⟩
        cases hres₂ : pipeTgtKeys idx resolve srcs tks' with
        | error e => simp [isErr]
        | ok es₂ => rw [hres₂] at hih; simp [isErr] at hih

theorem pipeConns_ok (idx : String → Nat) (resolve : String → List String)
    (conns : List (String × List String))
    (h : ∀ pr ∈ resolvedPairs resolve conns, idx pr.1 < idx pr.2) :
    pipeConns idx resolve conns
      = .ok ((resolvedPairs resolve conns).map (fun pr => ⟨pr.1, pr.2, none⟩)) := by
  induction conns with
  | nil => rfl
  | cons c rest ih =>
    obtain ⟨sk, tks⟩ := c
    simp only [pipeConns]
    have hhead : ∀ tk ∈ tks, ∀ s ∈ resolve sk, ∀ t ∈ resolve tk, idx s < idx t := by
      intro tk htk s hs t ht
      refine h (s, t) ?_
      simp only [resolvedPairs, List.flatMap_cons, List.mem_append]
      left
      simp only [List.mem_flatMap, List.mem_map]
      exact ⟨tk, htk, s, hs, t, ht, rfl⟩
    have htail : ∀ pr ∈ resolvedPairs resolve rest, idx pr.1 < idx pr.2 := by
      intro pr hpr
      refine h pr ?_
      simp only [resolvedPairs, List.flatMap_cons, List.mem_append]
      right
      exact hpr
    rw [pipeTgtKeys_ok idx resolve (resolve sk) tks hhead, ih htail]
    simp only [resolvedPairs, List.flatMap_cons, List.map_append]
    congr 1
    simp only [List.map_flatMap, List.map_map]
    rfl

theorem pipeConns_err (idx : String → Nat) (resolve : String → List String)
    (conns : List (String × List String))
    (h : ∃ pr ∈ resolvedPairs resolve conns, idx pr.2 ≤ idx pr.1) :
    isErr (pipeConns idx resolve conns) = true := by
  induction conns with
  | nil => simp [resolvedPairs] at h
  | cons c rest ih =>
    obtain ⟨sk, tks⟩ := c
    simp only [pipeConns]
    obtain ⟨pr, hpr, hle⟩ := h
    simp only [resolvedPairs, List.flatMap_cons, List.mem_append] at hpr
    cases hres : pipeTgtKeys idx resolve (resolve sk) tks with
    | error e => simp [isErr]
    | ok es₁ =>
      rcases hpr with hhead | htail
      · exfalso
        simp only [List.mem_flatMap, List.mem_map] at hhead
        obtain ⟨tk, htk, s, hs, t, ht, hpr'⟩ := hhead
        have hx := pipeTgtKeys_err idx resolve (resolve sk) tks
          ⟨tk, htk, s, hs, t, ht, by rw [← hpr'] at hle; exact hle⟩
        rw [hres] at hx
        simp [isErr] at hx
      · have hih := ih ⟨pr, htail, hle⟩
        cases hres₂ : pipeConns idx resolve rest with
        | error e => simp [isErr]
        | ok es₂ => rw [hres₂] at hih; simp [isErr] at hih

def pipeIds (nodes : List NodeData) : List String := nodes.map (fun n => n.id)

def pipeRsv (nodes : List NodeData) : String → List String :=
  pipelineResolve (byTypeOf (pipeIds nodes)) (pipeIds nodes)

def pipeIdx (nodes : List NodeData) : String → Nat := pyIndex (pipeIds nodes)

def c5Node1 : List NodeData := expandNodeInstances (fun _ => 0) [⟨"a", none, some 1⟩]

def c5Conns : List (String × List String) := [("a", ["a"])]

/-- C5 counterexample: on the single flat node `a_1` with connections
`{"a": ["a"]}`, the resolved pair `(a_1, a_1)` violates
`index(tgt) > index(src)`, yet `build_edges` returns `ok []` via the
`len(nodes) < 2` early return instead of raising a validation error. -/
theorem C5_single_node_counterexample :
    resolvedPairs (pipeRsv c5Node1) c5Conns = [("a_1", "a_1")]
    ∧ pipeIdx c5Node1 "a_1" ≤ pipeIdx c5Node1 "a_1"
    ∧ pipelineBuildEdges c5Node1 { connections := some c5Conns } = .ok [] := by
  exact ⟨by decide, by decide, by decide⟩

/-- C5 (amended): for at least two nodes and a non-empty connections
mapping, if every resolved `(src, tgt)` pair is strictly forward then no
error is raised and one edge per resolved pair is returned in loop order;
if some resolved pair has `index(tgt) <= index(src)` the call raises a
`ValueError`.  (With fewer than two nodes the call returns no edges without
consulting the connections.) -/
theorem C5_pipeline_forward_only (nodes : List NodeData) (p : Params)
    (conns : List (String × List String))
    (h2 : 2 ≤ nodes.length) (hc : p.connections = some conns) (hne : conns ≠ []) :
    ((∀ pr ∈ resolvedPairs (pipeRsv nodes) conns,
        pipeIdx nodes pr.1 < pipeIdx nodes pr.2) →
      pipelineBuildEdges nodes p
        = .ok ((resolvedPairs (pipeRsv nodes) conns).map (fun pr => ⟨pr.1, pr.2, none⟩)))
    ∧ ((∃ pr ∈ resolvedPairs (pipeRsv nodes) conns,
        pipeIdx nodes pr.2 ≤ pipeIdx nodes pr.1) →
      isErr (pipelineBuildEdges nodes p) = true) := by
  have hred : pipelineBuildEdges nodes p = pipeConns (pipeIdx nodes) (pipeRsv nodes) conns := by
    cases conns with
    | nil => exact absurd rfl hne
    | cons c cs =>
      unfold pipelineBuildEdges pipeIdx pipeRsv pipeIds
      rw [if_neg (by omega), hc]
  rw [hred]
  exact ⟨pipeConns_ok (pipeIdx nodes) (pipeRsv nodes) conns,
    pipeConns_err (pipeIdx nodes) (pipeRsv nodes) conns⟩

def c5NodesABC : List NodeData :=
  expandNodeInstances (fun _ => 0) [⟨"a", none, none⟩, ⟨"b", none, none⟩, ⟨"c", none, none⟩]

def c5ConnsBA : List (String × List String) := [("b", ["a"])]

/-- Witness for C5: `connections = {"b": ["a"]}` over `[a, b, c]` fails. -/
theorem C5_pipeline_forward_only_witness :
    isErr (pipelineBuildEdges c5NodesABC { connections := some c5ConnsBA }) = true :=
  (C5_pipeline_forward_only c5NodesABC { connections := some c5ConnsBA } c5ConnsBA
    (by decide) rfl (by decide)).2 (by decide)

/-! ### Hierarchy claim (C7) -/

def c7Nodes : List NodeData :=
  expandNodeInstances (fun _ => 0) [⟨"root", none, some 1⟩, ⟨"child", none, some 3⟩]

def c7Params : Params := { levels := some ["root", "child"], branch_factor := some (.list [3]) }

/-- C7: with `levels = [root, child]`, one root instance, three children and
`branch_factor = [3]`, the output is exactly the three edges root → child_i;
and in general, whenever level 0 resolves to exactly one node, that node is
connected to every level-1 node (as the code computes level 1) regardless of
the branch factor. -/
theorem C7_hierarchy_single_root :
    (hierarchyBuildEdges c7Nodes c7Params
      = .ok [⟨"root_1", "child_1", none⟩, ⟨"root_1", "child_2", none⟩,
          ⟨"root_1", "child_3", none⟩])
    ∧ (∀ (nodes : List NodeData) (p : Params) (es : List EdgeData) (l0 l1 : String)
        (ls : List String) (r : String),
        hierarchyBuildEdges nodes p = .ok es →
        hierLevels (byTypeOf (nodes.map (fun n => n.id))) p = l0 :: l1 :: ls →
        lookupGroup (byTypeOf (nodes.map (fun n => n.id))) l0 = some [r] →
        ∀ c ∈ (if l1 = "" then []
            else (lookupGroup (byTypeOf (nodes.map (fun n => n.id))) l1).getD []),
          (⟨r, c, none⟩ : EdgeData) ∈ es) := by
  constructor
  · decide
  · intro nodes p es l0 l1 ls r h hlev hr c hc
    have hne : (if l1 = "" then []
        else (lookupGroup (byTypeOf (nodes.map (fun n => n.id))) l1).getD []) ≠ [] :=
      List.ne_nil_of_mem hc
    simp only [hierarchyBuildEdges, hlev, hr] at h
    simp only [List.head?_cons, Option.getD_some, List.length_cons, List.length_nil] at h
    rw [if_pos (And.intro trivial hne)] at h
    split at h
    · simp at h
    · simp only [Except.ok.injEq] at h
      subst h
      apply List.mem_append.mpr
      left
      refine List.mem_map.mpr ⟨c, hc, ?_⟩
      simp

/-- Witness for C7's general single-root clause at the concrete instance. -/
theorem C7_hierarchy_single_root_witness :
    (⟨"root_1", "child_2", none⟩ : EdgeData)
      ∈ [(⟨"root_1", "child_1", none⟩ : EdgeData), ⟨"root_1", "child_2", none⟩,
          ⟨"root_1", "child_3", none⟩] :=
  C7_hierarchy_single_root.2 c7Nodes c7Params
    [⟨"root_1", "child_1", none⟩, ⟨"root_1", "child_2", none⟩, ⟨"root_1", "child_3", none⟩]
    "root" "child" [] "root_1" (by decide) (by decide) (by decide) "child_2" (by decide)

/-! ### Small-world claim (C8) -/

theorem swInner_zero (nodeIds : List String) (n i : Nat) (src : String) :
    ∀ (js : List Nat) (rng : Rng), (∀ q, 0 ≤ rng.reals q) →
      swInner 0 nodeIds n i src js rng
        = (js.map (fun j => ⟨src, nodeIds.getD ((i + j) % n) "", none⟩),
           { rng with rpos := rng.rpos + js.length }) := by
  intro js
  induction js with
  | nil => intro rng hr; simp [swInner]
  | cons j js' ih =>
    intro rng hr
    have hlt : ¬ (rng.reals rng.rpos < (0 : Rat)) := not_lt.mpr (hr rng.rpos)
    simp only [swInner, if_neg hlt]
    rw [ih { rng with rpos := rng.rpos + 1 } (fun q => hr q)]
    simp only [List.map_cons, List.length_cons, Prod.mk.injEq, Rng.mk.injEq, true_and,
      and_true]
    omega

theorem swOuter_zero (nodeIds : List String) (n : Nat) (jList : List Nat) :
    ∀ (pairs : List (Nat × String)) (rng : Rng), (∀ q, 0 ≤ rng.reals q) →
      swOuter 0 nodeIds n jList pairs rng
        = (pairs.flatMap (fun pr =>
            jList.map (fun j => ⟨pr.2, nodeIds.getD ((pr.1 + j) % n) "", none⟩)),
           { rng with rpos := rng.rpos + pairs.length * jList.length }) := by
  intro pairs
  induction pairs with
  | nil => intro rng hr; simp [swOuter]
  | cons pr rest ih =>
    obtain ⟨i, src⟩ := pr
    intro rng hr
    simp only [swOuter]
    rw [swInner_zero nodeIds n i src jList rng hr]
    rw [ih { rng with rpos := rng.rpos + jList.length } (fun q => hr q)]
    simp only [List.flatMap_cons, List.length_cons, Prod.mk.injEq, Rng.mk.injEq, true_and,
      and_true]
    ring

def swNodes10 : List NodeData := expandNodeInstances (fun _ => 0) [⟨"s", none, some 10⟩]

def swParams0 : Params := { node_type := some "s", k := some 4, rewiring_prob := some 0 }

def swRng0 : Rng := ⟨fun _ => 0, 0, fun _ => 0, 0⟩

def swIds10 : List String := swNodes10.map (fun n => n.id)

set_option maxRecDepth 8000 in
/-- C8 counterexample: with `k = 4`, `rewiring_prob = 0.0` and ten nodes of
one type, the call advances the random source by 20 draws (one
`random.random()` per emitted edge), so randomness IS consumed. -/
theorem C8_randomness_consumed_counterexample :
    (smallWorldBuildEdges swNodes10 swParams0 swRng0).2.rpos = 20
    ∧ swRng0.rpos = 0 := by
  exact ⟨by decide, rfl⟩

set_option maxRecDepth 8000 in
/-- C8 (amended): with `k = 4`, `rewiring_prob = 0.0` and ten nodes of one
type, the output is exactly the 20 ring-lattice edges joining each node to
its two nearest forward neighbors, identically on every run (for any state
of the random source); one uniform draw per edge is consumed (20 draws) but
no choice draw, and the draws never affect the output.  With fewer than 3
eligible nodes, `build_edges` returns no edges and leaves the source
untouched. -/
theorem C8_small_world_ring (rng : Rng) (hr : ∀ q, 0 ≤ rng.reals q) :
    (smallWorldBuildEdges swNodes10 swParams0 rng).1
      = swIds10.enum.flatMap (fun pr =>
          [⟨pr.2, swIds10.getD ((pr.1 + 1) % 10) "", none⟩,
           ⟨pr.2, swIds10.getD ((pr.1 + 2) % 10) "", none⟩])
    ∧ (smallWorldBuildEdges swNodes10 swParams0 rng).1.length = 20
    ∧ (smallWorldBuildEdges swNodes10 swParams0 rng).2.rpos = rng.rpos + 20
    ∧ (smallWorldBuildEdges swNodes10 swParams0 rng).2.cpos = rng.cpos
    ∧ (smallWorldBuildEdges swNodes10 swParams0 rng).2.reals = rng.reals
    ∧ (smallWorldBuildEdges swNodes10 swParams0 rng).2.choices = rng.choices
    ∧ (∀ (nodes : List NodeData) (p : Params) (rng' : Rng),
        (swEligibleIds nodes p).length < 3 →
        smallWorldBuildEdges nodes p rng' = ([], rng')) := by
  have hred : smallWorldBuildEdges swNodes10 swParams0 rng
      = swOuter 0 swIds10 10 [1, 2] swIds10.enum rng := rfl
  have hz := swOuter_zero swIds10 10 [1, 2] swIds10.enum rng hr
  have h20 : swIds10.enum.length * ([1, 2] : List Nat).length = 20 := by decide
  refine ⟨?_, ?_, ?_, ?_, ?_, ?_, ?_⟩
  · rw [hred, hz]
    rfl
  · rw [hred, hz]
    rfl
  · rw [hred, hz]
    show rng.rpos + swIds10.enum.length * ([1, 2] : List Nat).length = rng.rpos + 20
    omega
  · rw [hred, hz]
  · rw [hred, hz]
  · rw [hred, hz]
  · intro nodes p rng' hlt
    simp [smallWorldBuildEdges, hlt]

/-- Witness for C8 at a concrete all-zero random source. -/
theorem C8_small_world_ring_witness :
    (∀ q, (0 : Rat) ≤ swRng0.reals q)
    ∧ (smallWorldBuildEdges swNodes10 swParams0 swRng0).2.rpos = swRng0.rpos + 20 :=
  ⟨fun _ => le_refl 0, (C8_small_world_ring swRng0 (fun _ => le_refl 0)).2.2.1⟩

/-! ### Edge ids and `build` (C9)

Every registered topology emits edges without an `"id"` key, so
`_ensure_edge_ids` assigns `e_{idx}_{src}_to_{tgt}` to all of them, and the
1-based `idx` makes the ids pairwise distinct. -/

theorem star_ids_none (nodes : List NodeData) (p : Params) (es : List EdgeData)
    (h : starBuildEdges nodes p = .ok es) : ∀ e ∈ es, e.id = none := by
  unfold starBuildEdges at h
  cases hc : starCenter nodes p with
  | none => rw [hc] at h; simp at h
  | some c =>
    rw [hc] at h
    simp only [Except.ok.injEq] at h
    subst h
    intro e he
    obtain ⟨n, _, rfl⟩ := List.mem_map.mp he
    rfl

theorem pipePairTgts_ids_none (idx : String → Nat) (s : String) (tgts : List String) :
    ∀ es, pipePairTgts idx s tgts = .ok es → ∀ e ∈ es, e.id = none := by
  induction tgts with
  | nil =>
    intro es h
    simp only [pipePairTgts, Except.ok.injEq] at h
    subst h
    simp
  | cons t ts ih =>
    intro es h
    simp only [pipePairTgts] at h
    split at h
    · exact absurd h (by simp)
    · cases hres : pipePairTgts idx s ts with
      | error e => rw [hres] at h; simp at h
      | ok es' =>
        rw [hres] at h
        simp only [Except.ok.injEq] at h
        subst h
        intro e he
        rcases List.mem_cons.mp he with rfl | hmem
        · rfl
        · exact ih es' hres e hmem

theorem pipeSrcs_ids_none (idx : String → Nat) (tgts : List String) :
    ∀ (srcs : List String) (es : List EdgeData), pipeSrcs idx tgts srcs = .ok es →
      ∀ e ∈ es, e.id = none := by
  intro srcs
  induction srcs with
  | nil =>
    intro es h
    simp only [pipeSrcs, Except.ok.injEq] at h
    subst h
    simp
  | cons s ss ih =>
    intro es h
    simp only [pipeSrcs] at h
    cases h1 : pipePairTgts idx s tgts with
    | error e => rw [h1] at h; simp at h
    | ok es₁ =>
      rw [h1] at h
      cases h2 : pipeSrcs idx tgts ss with
      | error e => rw [h2] at h; simp at h
      | ok es₂ =>
        rw [h2] at h
        simp only [Except.ok.injEq] at h
        subst h
        intro e he
        rcases List.mem_append.mp he with hm | hm
        · exact pipePairTgts_ids_none idx s tgts es₁ h1 e hm
        · exact ih es₂ h2 e hm

theorem pipeTgtKeys_ids_none (idx : String → Nat) (resolve : String → List String)
    (srcs : List String) :
    ∀ (tks : List String) (es : List EdgeData), pipeTgtKeys idx resolve srcs tks = .ok es →
      ∀ e ∈ es, e.id = none := by
  intro tks
  induction tks with
  | nil =>
    intro es h
    simp only [pipeTgtKeys, Except.ok.injEq] at h
    subst h
    simp
  | cons tk tks' ih =>
    intro es h
    simp only [pipeTgtKeys] at h
    cases h1 : pipeSrcs idx (resolve tk) srcs with
    | error e => rw [h1] at h; simp at h
    | ok es₁ =>
      rw [h1] at h
      cases h2 : pipeTgtKeys idx resolve srcs tks' with
      | error e => rw [h2] at h; simp at h
      | ok es₂ =>
        rw [h2] at h
        simp only [Except.ok.injEq] at h
        subst h
        intro e he
        rcases List.mem_append.mp he with hm | hm
        · exact pipeSrcs_ids_none idx (resolve tk) srcs es₁ h1 e hm
        · exact ih es₂ h2 e hm

theorem pipeConns_ids_none (idx : String → Nat) (resolve : String → List String) :
    ∀ (conns : List (String × List String)) (es : List EdgeData),
      pipeConns idx resolve conns = .ok es → ∀ e ∈ es, e.id = none := by
  intro conns
  induction conns with
  | nil =>
    intro es h
    simp only [pipeConns, Except.ok.injEq] at h
    subst h
    simp
  | cons c rest ih =>
    obtain ⟨sk, tks⟩ := c
    intro es h
    simp only [pipeConns] at h
    cases h1 : pipeTgtKeys idx resolve (resolve sk) tks with
    | error e => rw [h1] at h; simp at h
    | ok es₁ =>
      rw [h1] at h
      cases h2 : pipeConns idx resolve rest with
      | error e => rw [h2] at h; simp at h
      | ok es₂ =>
        rw [h2] at h
        simp only [Except.ok.injEq] at h
        subst h
        intro e he
        rcases List.mem_append.mp he with hm | hm
        · exact pipeTgtKeys_ids_none idx resolve (resolve sk) tks es₁ h1 e hm
        · exact ih es₂ h2 e hm

theorem pipelineBuildEdges_ids_none (nodes : List NodeData) (p : Params)
    (es : List EdgeData) (h : pipelineBuildEdges nodes p = .ok es) :
    ∀ e ∈ es, e.id = none := by
  unfold pipelineBuildEdges at h
  split at h
  · simp only [Except.ok.injEq] at h
    subst h
    simp
  · split at h
    · simp only [Except.ok.injEq] at h
      subst h
      intro e he
      obtain ⟨pr, _, rfl⟩ := List.mem_map.mp he
      rfl
    · simp only [Except.ok.injEq] at h
      subst h
      intro e he
      obtain ⟨pr, _, rfl⟩ := List.mem_map.mp he
      rfl
    · exact pipeConns_ids_none _ _ _ es h

theorem fanLoop_ids_none (pid : String) (children : List String) :
    ∀ (f ci : Nat), ∀ e ∈ (fanLoop pid children f ci).1, e.id = none := by
  intro f
  induction f with
  | zero => intro ci e he; simp [fanLoop] at he
  | succ f' ih =>
    intro ci e he
    simp only [fanLoop] at he
    split at he
    · simp at he
    · rcases List.mem_cons.mp he with rfl | hmem
      · rfl
      · exact ih (ci + 1) e hmem

theorem parentsLoop_ids_none (children : List String) (fanout : Nat) :
    ∀ (parents : List String) (ci : Nat),
      ∀ e ∈ (parentsLoop children fanout parents ci).1, e.id = none := by
  intro parents
  induction parents with
  | nil => intro ci e he; simp [parentsLoop] at he
  | cons pid ps ih =>
    intro ci e he
    simp only [parentsLoop] at he
    rcases List.mem_append.mp he with hm | hm
    · exact fanLoop_ids_none pid children fanout ci e hm
    · exact ih _ e hm

theorem hierTreeGo_ids_none (byType : List (String × List String)) (bf : List Int)
    (levels : List String) :
    ∀ (idxs : List Nat) (es : List EdgeData), hierTreeGo byType bf levels idxs = .ok es →
      ∀ e ∈ es, e.id = none := by
  intro idxs
  induction idxs with
  | nil =>
    intro es h
    simp only [hierTreeGo, Except.ok.injEq] at h
    subst h
    simp
  | cons i is ih =>
    intro es h
    simp only [hierTreeGo] at h
    split at h
    · exact ih es h
    · split at h
      · simp at h
      · cases h2 : hierTreeGo byType bf levels is with
        | error e => rw [h2] at h; simp at h
        | ok ts =>
          rw [h2] at h
          simp only [Except.ok.injEq] at h
          subst h
          intro e he
          rcases List.mem_append.mp he with hm | hm
          · exact parentsLoop_ids_none _ _ _ _ e hm
          · exact ih ts h2 e hm

theorem hierarchyBuildEdges_ids_none (nodes : List NodeData) (p : Params)
    (es : List EdgeData) (h : hierarchyBuildEdges nodes p = .ok es) :
    ∀ e ∈ es, e.id = none := by
  simp only [hierarchyBuildEdges] at h
  split at h
  · simp at h
  · split at h
    · simp at h
    · next ts htg =>
      simp only [Except.ok.injEq] at h
      subst h
      intro e he
      rcases List.mem_append.mp he with hm | hm
      · split at hm
        · obtain ⟨c, _, rfl⟩ := List.mem_map.mp hm
          rfl
        · split at hm
          · obtain ⟨i, _, rfl⟩ := List.mem_map.mp hm
            rfl
          · simp at hm
      · exact hierTreeGo_ids_none _ _ _ _ ts htg e hm

theorem swInner_ids_none (prob : Rat) (nodeIds : List String) (n i : Nat) (src : String) :
    ∀ (js : List Nat) (rng : Rng), ∀ e ∈ (swInner prob nodeIds n i src js rng).1,
      e.id = none := by
  intro js
  induction js with
  | nil => intro rng e he; simp [swInner] at he
  | cons j js' ih =>
    intro rng e he
    simp only [swInner] at he
    split at he
    · split at he
      · exact ih _ e he
      · rcases List.mem_cons.mp he with rfl | hmem
        · rfl
        · exact ih _ e hmem
    · rcases List.mem_cons.mp he with rfl | hmem
      · rfl
      · exact ih _ e hmem

theorem swOuter_ids_none (prob : Rat) (nodeIds : List String) (n : Nat) (jList : List Nat) :
    ∀ (pairs : List (Nat × String)) (rng : Rng),
      ∀ e ∈ (swOuter prob nodeIds n jList pairs rng).1, e.id = none := by
  intro pairs
  induction pairs with
  | nil => intro rng e he; simp [swOuter] at he
  | cons pr rest ih =>
    obtain ⟨i, src⟩ := pr
    intro rng e he
    simp only [swOuter] at he
    rcases List.mem_append.mp he with hm | hm
    · exact swInner_ids_none prob nodeIds n i src jList rng e hm
    · exact ih _ e hm

theorem smallWorldBuildEdges_ids_none (nodes : List NodeData) (p : Params) (rng : Rng) :
    ∀ e ∈ (smallWorldBuildEdges nodes p rng).1, e.id = none := by
  intro e he
  simp only [smallWorldBuildEdges] at he
  split at he
  · simp at he
  · exact swOuter_ids_none _ _ _ _ _ _ e he

theorem edgeIdStr_assoc (i : Nat) (s t : String) :
    edgeIdStr i s t = "e_" ++ Nat.repr i ++ "_" ++ (s ++ "_to_" ++ t) := by
  apply String.ext
  simp [edgeIdStr, string_data_append]

theorem ensureAux_id_shape (es₀ : List EdgeData) :
    ∀ i, (∀ e ∈ es₀, e.id = none) →
      ∀ x ∈ ensureEdgeIdsAux i es₀, ∃ j s t, i ≤ j ∧ x.id = some (edgeIdStr j s t) := by
  induction es₀ with
  | nil => intro i h x hx; simp [ensureEdgeIdsAux] at hx
  | cons e es ih =>
    intro i h x hx
    simp only [ensureEdgeIdsAux] at hx
    rw [h e (List.mem_cons_self e es)] at hx
    rcases List.mem_cons.mp hx with rfl | hmem
    · exact ⟨i, e.source, e.target, le_refl i, rfl⟩
    · obtain ⟨j, s, t, hij, hid⟩ := ih (i + 1)
        (fun e' he' => h e' (List.mem_cons_of_mem e he')) x hmem
      exact ⟨j, s, t, by omega, hid⟩

theorem ensureAux_nodup (es₀ : List EdgeData) :
    ∀ i, (∀ e ∈ es₀, e.id = none) →
      ((ensureEdgeIdsAux i es₀).map (fun e => e.id)).Nodup := by
  induction es₀ with
  | nil => intro i h; simp [ensureEdgeIdsAux]
  | cons e es ih =>
    intro i h
    simp only [ensureEdgeIdsAux]
    rw [h e (List.mem_cons_self e es)]
    simp only [List.map_cons, List.nodup_cons]
    constructor
    · intro hmem
      obtain ⟨x, hx, hxid⟩ := List.mem_map.mp hmem
      obtain ⟨j, s, t, hij, hid⟩ := ensureAux_id_shape es (i + 1)
        (fun e' he' => h e' (List.mem_cons_of_mem e he')) x hx
      rw [hid] at hxid
      have heq : edgeIdStr j s t = edgeIdStr i e.source e.target := by
        simpa using hxid
      rw [edgeIdStr_assoc, edgeIdStr_assoc] at heq
      have := edge_id_index_injective heq
      omega
    · exact ih (i + 1) (fun e' he' => h e' (List.mem_cons_of_mem e he'))

/-- When the topology supplied no edge ids (as all registered topologies do),
`_ensure_edge_ids` leaves every edge with an id and the ids are pairwise
distinct. -/
theorem ensure_props (es₀ : List EdgeData) (h : ∀ e ∈ es₀, e.id = none) :
    (∀ x ∈ ensureEdgeIds es₀, x.id.isSome = true)
    ∧ ((ensureEdgeIds es₀).map (fun e => e.id)).Nodup := by
  constructor
  · intro x hx
    obtain ⟨j, s, t, _, hid⟩ := ensureAux_id_shape es₀ 1 h x hx
    rw [hid]
    rfl
  · exact ensureAux_nodup es₀ 1 h

/-- C9: every successful `GraphBuilder.build` output is the flat node list
followed by the edge list, every edge carries an id, and the edge ids are
pairwise distinct within the call. -/
theorem C9_build_edge_ids (irTopology : String) (irNodes : List NodeGroup)
    (irParams : Params) (pyHash : String → Int) (rng : Rng) (out : List Element) (rng' : Rng)
    (h : build irTopology irNodes irParams pyHash rng = .ok (out, rng')) :
    ∃ es : List EdgeData,
      out = (expandNodeInstances pyHash irNodes).map Element.node ++ es.map Element.edge
      ∧ (∀ e ∈ es, e.id.isSome = true)
      ∧ (es.map (fun e => e.id)).Nodup := by
  simp only [build] at h
  split at h
  · simp at h
  · split at h
    · cases h1 : hierarchyBuildEdges (expandNodeInstances pyHash irNodes) irParams with
      | error e => rw [h1] at h; simp [Except.map] at h
      | ok es₀ =>
        rw [h1] at h
        simp only [Except.map, Except.ok.injEq, Prod.mk.injEq] at h
        obtain ⟨hout, _⟩ := h
        exact ⟨ensureEdgeIds es₀, hout.symm,
          (ensure_props es₀ (hierarchyBuildEdges_ids_none _ _ _ h1)).1,
          (ensure_props es₀ (hierarchyBuildEdges_ids_none _ _ _ h1)).2⟩
    · cases h1 : pipelineBuildEdges (expandNodeInstances pyHash irNodes) irParams with
      | error e => rw [h1] at h; simp [Except.map] at h
      | ok es₀ =>
        rw [h1] at h
        simp only [Except.map, Except.ok.injEq, Prod.mk.injEq] at h
        obtain ⟨hout, _⟩ := h
        exact ⟨ensureEdgeIds es₀, hout.symm,
          (ensure_props es₀ (pipelineBuildEdges_ids_none _ _ _ h1)).1,
          (ensure_props es₀ (pipelineBuildEdges_ids_none _ _ _ h1)).2⟩
    · simp only [Except.ok.injEq, Prod.mk.injEq] at h
      obtain ⟨hout, _⟩ := h
      refine ⟨ensureEdgeIds (smallWorldBuildEdges (expandNodeInstances pyHash irNodes)
        irParams rng).1, hout.symm, ?_, ?_⟩
      · exact (ensure_props _ (smallWorldBuildEdges_ids_none _ _ _)).1
      · exact (ensure_props _ (smallWorldBuildEdges_ids_none _ _ _)).2
    · cases h1 : starBuildEdges (expandNodeInstances pyHash irNodes) irParams with
      | error e => rw [h1] at h; simp [Except.map] at h
      | ok es₀ =>
        rw [h1] at h
        simp only [Except.map, Except.ok.injEq, Prod.mk.injEq] at h
        obtain ⟨hout, _⟩ := h
        exact ⟨ensureEdgeIds es₀, hout.symm,
          (ensure_props es₀ (star_ids_none _ _ _ h1)).1,
          (ensure_props es₀ (star_ids_none _ _ _ h1)).2⟩
    · simp at h

def c9Groups : List NodeGroup := [⟨"manager", none, some 1⟩, ⟨"worker", none, some 2⟩]

def c9Out : List Element :=
  [Element.node ⟨"manager_1", "manager", "manager", "#1f77b4"⟩,
   Element.node ⟨"worker_1", "worker", "worker", "#1f77b4"⟩,
   Element.node ⟨"worker_2", "worker", "worker", "#1f77b4"⟩,
   Element.edge ⟨"manager_1", "worker_1", some "e_1_manager_1_to_worker_1"⟩,
   Element.edge ⟨"manager_1", "worker_2", some "e_2_manager_1_to_worker_2"⟩]

/-- Witness for C9 at a concrete star build. -/
theorem C9_build_edge_ids_witness :
    build "star" c9Groups { center := some "manager" } (fun _ => 0) swRng0
      = .ok (c9Out, swRng0)
    ∧ (∃ es : List EdgeData,
        c9Out = (expandNodeInstances (fun _ => 0) c9Groups).map Element.node
          ++ es.map Element.edge
        ∧ (∀ e ∈ es, e.id.isSome = true)
        ∧ (es.map (fun e => e.id)).Nodup) :=
  ⟨rfl, C9_build_edge_ids "star" c9Groups { center := some "manager" } (fun _ => 0)
    swRng0 c9Out swRng0 rfl⟩

/-! ### Star claim (C6) -/

theorem lookup_groupPairs_some_ne_nil {ps : List (String × String)} {k : String}
    {vs : List String} (h : lookupGroup (groupPairs ps) k = some vs) : vs ≠ [] := by
  rw [lookupGroup_groupPairs] at h
  split at h
  · simp at h
  · next hne =>
    injection h with h'
    subst h'
    exact hne

theorem lookup_groupPairs_subset {ps : List (String × String)} {k : String}
    {vs : List String} (h : lookupGroup (groupPairs ps) k = some vs) :
    ∀ x ∈ vs, x ∈ ps.map Prod.snd := by
  rw [lookupGroup_groupPairs] at h
  split at h
  · simp at h
  · injection h with h'
    subst h'
    intro x hx
    obtain ⟨pr, hpr, rfl⟩ := List.mem_map.mp hx
    exact List.mem_map_of_mem _ (List.mem_of_mem_filter hpr)

theorem values_insertPair (acc : List (String × List String)) (k v y : String) :
    y ∈ (insertPair acc k v).flatMap Prod.snd ↔ y ∈ acc.flatMap Prod.snd ∨ y = v := by
  induction acc with
  | nil => simp [insertPair]
  | cons p rest ih =>
    obtain ⟨k0, vs0⟩ := p
    simp only [insertPair]
    split
    · simp only [List.flatMap_cons, List.mem_append, List.mem_singleton]
      tauto
    · simp only [List.flatMap_cons, List.mem_append, ih]
      tauto

theorem values_groupPairsAux (ps : List (String × String)) :
    ∀ (acc : List (String × List String)) (y : String),
      y ∈ (groupPairsAux acc ps).flatMap Prod.snd
        ↔ y ∈ acc.flatMap Prod.snd ∨ y ∈ ps.map Prod.snd := by
  induction ps with
  | nil => intro acc y; simp [groupPairsAux]
  | cons p rest ih =>
    obtain ⟨k, v⟩ := p
    intro acc y
    simp only [groupPairsAux]
    rw [ih, values_insertPair]
    simp only [List.map_cons, List.mem_cons]
    tauto

theorem values_groupPairs (ps : List (String × String)) (y : String) :
    y ∈ (groupPairs ps).flatMap Prod.snd ↔ y ∈ ps.map Prod.snd := by
  rw [groupPairs, values_groupPairsAux]
  simp

theorem starCenterResolved_mem {ps : List (String × String)} {cp : Option String}
    {x : String} (hx : x ∈ starCenterResolved (groupPairs ps) cp) :
    x ∈ ps.map Prod.snd := by
  simp only [starCenterResolved] at hx
  split at hx
  · split at hx
    · next pr hfind =>
      have hpr := List.mem_of_find?_eq_some hfind
      exact (values_groupPairs ps x).mp (List.mem_flatMap.mpr ⟨pr, hpr, hx⟩)
    · simp at hx
  · simp only [starCenterCandidates] at hx
    split at hx
    · split at hx
      · next ids hl => exact lookup_groupPairs_subset hl x hx
      · split at hx
        · next hcont =>
          simp only [List.mem_singleton] at hx
          subst hx
          exact (values_groupPairs ps x).mp (List.elem_iff.mp hcont)
        · simp at hx
    · simp at hx

theorem byTypeOf_eq_groupPairs (nodes : List NodeData) :
    byTypeOf (nodes.map (fun n => n.id))
      = groupPairs (nodes.map (fun n => (rsplitBase n.id, n.id))) := by
  unfold byTypeOf
  rw [List.map_map]
  rfl

theorem starCenter_mem {nodes : List NodeData} {p : Params} {c : String}
    (h : starCenter nodes p = some c) : c ∈ nodes.map (fun n => n.id) := by
  simp only [starCenter] at h
  rw [byTypeOf_eq_groupPairs] at h
  split at h
  · next c' rest heq =>
    injection h with h'
    have hm : c' ∈ starCenterResolved
        (groupPairs (nodes.map (fun n => (rsplitBase n.id, n.id)))) p.center := by
      rw [heq]
      exact List.mem_cons_self c' rest
    have hmm := starCenterResolved_mem hm
    rw [List.map_map] at hmm
    rw [← h']
    exact hmm
  · cases nodes with
    | nil => simp at h
    | cons n rest =>
      simp only [List.head?_cons, Option.map_some] at h
      injection h with h'
      subst h'
      simp

theorem filter_ne_length {nodes : List NodeData} {c : String}
    (hnd : (nodes.map (fun n => n.id)).Nodup) (hmem : c ∈ nodes.map (fun n => n.id)) :
    (nodes.filter (fun n => n.id != c)).length = nodes.length - 1 := by
  induction nodes with
  | nil => simp at hmem
  | cons n rest ih =>
    simp only [List.map_cons, List.nodup_cons] at hnd
    obtain ⟨hn, hrest⟩ := hnd
    simp only [List.map_cons, List.mem_cons] at hmem
    by_cases hc : n.id = c
    · subst hc
      have hall : rest.filter (fun m => m.id != n.id) = rest := by
        rw [List.filter_eq_self]
        intro m hm
        simp only [bne_iff_ne, ne_eq]
        intro hcon
        exact hn (hcon ▸ List.mem_map_of_mem _ hm)
      simp [List.filter_cons, hall]
    · rcases hmem with hmem | hmem
      · exact absurd hmem.symm hc
      · have hrne : rest ≠ [] := by
          intro hcon
          rw [hcon] at hmem
          simp at hmem
        have hlen : 1 ≤ rest.length := by
          cases rest with
          | nil => exact absurd rfl hrne
          | cons _ _ => simp
        have := ih hrest hmem
        simp only [List.filter_cons]
        rw [if_pos (by simpa using hc)]
        simp only [List.length_cons, this]
        omega

/-- The claim's fallback steps (c) and (d): the first node type with exactly
one instance, else the first node. -/
def starFallbackCenter (byType : List (String × List String))
    (nodes : List NodeData) : Option String :=
  match byType.find? (fun pr => pr.2.length == 1) with
  | some pr => pr.2.head?
  | none => (nodes.head?).map (fun n => n.id)

/-- The claim's center-resolution order, stated over the flat nodes' `type`
field: (a) `params.center` naming a node type — first instance of that
type; (b) `params.center` naming an exact node id; (c) the first type with
exactly one instance; (d) the first node. -/
def starCenterSpec (nodes : List NodeData) (p : Params) : Option String :=
  let byType := groupPairs (nodes.map (fun n => (n.type, n.id)))
  match p.center with
  | some cp =>
    match lookupGroup byType cp with
    | some ids => ids.head?
    | none =>
      if (nodes.map (fun n => n.id)).contains cp then some cp
      else starFallbackCenter byType nodes
  | none => starFallbackCenter byType nodes

theorem fallback_match (byType : List (String × List String)) (nodes : List NodeData) :
    (match (match byType.find? (fun pr => pr.2.length == 1) with
            | some pr => pr.2
            | none => ([] : List String)) with
     | c :: _ => some c
     | [] => (nodes.head?).map (fun n => n.id))
    = starFallbackCenter byType nodes := by
  cases hf : byType.find? (fun pr => pr.2.length == 1) with
  | some pr =>
    have hl : pr.2.length = 1 := by simpa using List.find?_some hf
    obtain ⟨x, hx⟩ := List.length_eq_one.mp hl
    simp [starFallbackCenter, hf, hx]
  | none => simp [starFallbackCenter, hf]

/-- The source's center resolution agrees with the claim's four-step
resolution order (stated over the `type` field) on flat nodes, where the
base of each id is its type. -/
theorem starCenter_eq_spec (nodes : List NodeData) (p : Params)
    (hty : ∀ n ∈ nodes, rsplitBase n.id = n.type) :
    starCenter nodes p = starCenterSpec nodes p := by
  have hbt : byTypeOf (nodes.map (fun n => n.id))
      = groupPairs (nodes.map (fun n => (n.type, n.id))) := by
    rw [byTypeOf_eq_groupPairs]
    congr 1
    exact List.map_congr_left (fun n hn => by rw [hty n hn])
  simp only [starCenter, starCenterSpec, hbt]
  cases hcp : p.center with
  | none =>
    simp only [starCenterResolved, starCenterCandidates, List.isEmpty_nil, if_true]
    exact fallback_match _ nodes
  | some cp =>
    simp only [starCenterResolved, starCenterCandidates]
    cases hl : lookupGroup (groupPairs (nodes.map (fun n => (n.type, n.id)))) cp with
    | some ids =>
      have hne' : ids ≠ [] := lookup_groupPairs_some_ne_nil hl
      cases ids with
      | nil => exact absurd rfl hne'
      | cons x t => simp
    | none =>
      have hiff : cp ∈ (groupPairs (nodes.map (fun n => (n.type, n.id)))).flatMap
            (fun pr => pr.2)
          ↔ cp ∈ nodes.map (fun n => n.id) := by
        rw [values_groupPairs, List.map_map]
        rfl
      have hcv : ((groupPairs (nodes.map (fun n => (n.type, n.id)))).flatMap
            (fun pr => pr.2)).contains cp
          = (nodes.map (fun n => n.id)).contains cp := by
        simp only [List.contains]
        by_cases hmem : cp ∈ nodes.map (fun n => n.id)
        · rw [List.elem_iff.mpr (hiff.mpr hmem), List.elem_iff.mpr hmem]
        · have e1 : List.elem cp ((groupPairs (nodes.map (fun n => (n.type, n.id)))).flatMap
              (fun pr => pr.2)) = false := by
            rw [← Bool.not_eq_true]
            intro hcon
            exact hmem (hiff.mp (List.elem_iff.mp hcon))
          have e2 : List.elem cp (nodes.map (fun n => n.id)) = false := by
            rw [← Bool.not_eq_true]
            intro hcon
            exact hmem (List.elem_iff.mp hcon)
          rw [e1, e2]
      rw [hcv]
      cases hcase : (nodes.map (fun n => n.id)).contains cp with
      | true => simp
      | false =>
        simp only [Bool.false_eq_true, if_false, List.isEmpty_nil, if_true]
        exact fallback_match _ nodes

theorem starCenter_isSome (nodes : List NodeData) (p : Params) (hne : nodes ≠ []) :
    ∃ c, starCenter nodes p = some c := by
  simp only [starCenter]
  split
  · exact ⟨_, rfl⟩
  · cases nodes with
    | nil => exact absurd rfl hne
    | cons n rest => exact ⟨n.id, by simp⟩

theorem starBuildEdges_eq {nodes : List NodeData} {p : Params} {c : String}
    (h : starCenter nodes p = some c) :
    starBuildEdges nodes p
      = .ok ((nodes.filter (fun n => n.id != c)).map (fun n => ⟨c, n.id, none⟩)) := by
  unfold starBuildEdges
  rw [h]

/-- C6: on any non-empty flat node list, the star topology resolves a
center by the claim's four-step order (explicit type; explicit id; first
singleton type; first node), returns exactly `N − 1` edges, every edge has
the center as source, and no edge joins two non-center nodes. -/
theorem C6_star_center (nodes : List NodeData) (p : Params)
    (hne : nodes ≠ []) (hnd : (nodes.map (fun n => n.id)).Nodup)
    (hty : ∀ n ∈ nodes, rsplitBase n.id = n.type) :
    ∃ c, starCenter nodes p = some c
      ∧ starCenterSpec nodes p = some c
      ∧ starBuildEdges nodes p
          = .ok ((nodes.filter (fun n => n.id != c)).map (fun n => ⟨c, n.id, none⟩))
      ∧ ((nodes.filter (fun n => n.id != c)).map
          (fun n => (⟨c, n.id, none⟩ : EdgeData))).length = nodes.length - 1
      ∧ (∀ e ∈ (nodes.filter (fun n => n.id != c)).map
          (fun n => (⟨c, n.id, none⟩ : EdgeData)), e.source = c ∧ e.target ≠ c) := by
  obtain ⟨c, hc⟩ := starCenter_isSome nodes p hne
  refine ⟨c, hc, ?_, starBuildEdges_eq hc, ?_, ?_⟩
  · rw [← starCenter_eq_spec nodes p hty]
    exact hc
  · simp only [List.length_map]
    exact filter_ne_length hnd (starCenter_mem hc)
  · intro e he
    obtain ⟨n, hn, rfl⟩ := List.mem_map.mp he
    refine ⟨rfl, ?_⟩
    have hf := List.of_mem_filter hn
    simpa using hf

def c6Nodes : List NodeData :=
  expandNodeInstances (fun _ => 0) [⟨"manager", none, some 1⟩, ⟨"worker", none, some 2⟩]

def c6Params : Params := { center := some "manager" }

/-- Witness for C6 at a concrete manager/worker star. -/
theorem C6_star_center_witness :
    (c6Nodes ≠ [] ∧ (c6Nodes.map (fun n => n.id)).Nodup
      ∧ (∀ n ∈ c6Nodes, rsplitBase n.id = n.type))
    ∧ (∃ c, starCenter c6Nodes c6Params = some c
      ∧ starCenterSpec c6Nodes c6Params = some c
      ∧ starBuildEdges c6Nodes c6Params
          = .ok ((c6Nodes.filter (fun n => n.id != c)).map (fun n => ⟨c, n.id, none⟩))
      ∧ ((c6Nodes.filter (fun n => n.id != c)).map
          (fun n => (⟨c, n.id, none⟩ : EdgeData))).length = c6Nodes.length - 1
      ∧ (∀ e ∈ (c6Nodes.filter (fun n => n.id != c)).map
          (fun n => (⟨c, n.id, none⟩ : EdgeData)), e.source = c ∧ e.target ≠ c)) :=
  ⟨⟨by decide, by decide, by decide⟩,
    C6_star_center c6Nodes c6Params (by decide) (by decide) (by decide)⟩

end MasViz
